import Mathlib

/-!
Verification of the size-targeted JPEG encoder of image-tools
(`save_final_puzzle_image` in `backend/calendar/utils.py`,
`backend/cover/utils.py` and `backend/couple-avatar/utils.py`; the three
copies are textually identical, so one embedding covers all of them).

The embedding separates three aspects of the source:

* a pixel-level model of the RGB normalisation step (lines 120-126 of
  `backend/calendar/utils.py`): `flattenToRGB`;
* a model of the output-path extension rewrite (lines 128-130):
  `normalizeOutput`;
* the quality/size search loop (lines 132-195): `sweep1`, `sweep2` and
  `save_final_puzzle_image_run`, parametrised by an abstract codec oracle
  (`EncodeEnv`) that gives, for every quality, the byte size the external
  JPEG encoder would produce for the flattened bitmap resp. for its
  downscaled copy.  Each `image.save(...)` call of the source becomes one
  `SaveEv` record; the file present at the output path at the end of the
  call is the last event (every save overwrites the same path).

The Python loop `while current_quality >= 30: ... current_quality -= 5`
starting from 95 (resp. 85) visits exactly the qualities listed in
`qualities1` (resp. `qualities2`); the loops are embedded as structural
recursion over those lists so that every run computes by `decide`.

The `scale = (target_size / best_size) ** 0.5` / `int(width * scale)`
computation of lines 163-164 is modelled with exact real arithmetic:
`newDim d t b = Nat.sqrt (d * d * t / b)`, which is proved below to equal
`⌊d * Real.sqrt (t / b)⌋₊`.
-/

namespace ImageTools

/-! ### Pixel-level model of the bitmap and of the RGB normalisation -/

/-- Color mode of a PIL bitmap: `RGB`, `RGBA`, or any other mode
(grayscale `L`, palette `P`, ...), abstracted by its name. -/
inductive Mode where
  | RGB : Mode
  | RGBA : Mode
  | other : String → Mode
deriving DecidableEq

/-- One pixel; the `a` component is meaningful only in `RGBA` mode. -/
structure Pixel where
  r : Nat
  g : Nat
  b : Nat
  a : Nat
deriving DecidableEq

/-- The opaque white pixel `(255, 255, 255)`. -/
def whitePixel : Pixel := ⟨255, 255, 255, 255⟩

/-- Alpha-compositing of a pixel over an opaque white background, as
performed by `bg.paste(image, mask=image.split()[3])` with
`bg = Image.new('RGB', image.size, (255, 255, 255))`
(lines 122-123 of `backend/calendar/utils.py`): each channel is the
alpha-weighted mix of the source channel and white.  (The library's exact
sub-unit rounding is irrelevant to the claims: at `a = 0` the mix is the
background channel and at `a = 255` the source channel, exactly.) -/
def blendOnWhite (p : Pixel) : Pixel :=
  ⟨(p.r * p.a + 255 * (255 - p.a)) / 255,
   (p.g * p.a + 255 * (255 - p.a)) / 255,
   (p.b * p.a + 255 * (255 - p.a)) / 255,
   255⟩

/-- A bitmap: a color mode, pixel dimensions, and a pixel grid. -/
structure Img where
  mode : Mode
  width : Nat
  height : Nat
  px : Nat → Nat → Pixel

/-- Lines 120-126 of `backend/calendar/utils.py`: an `RGBA` bitmap is
flattened onto an opaque white canvas of the same size; any mode other
than `RGB`/`RGBA` is converted to `RGB` by `image.convert('RGB')` (the
channel mapping of `convert` is mode-specific library behaviour; the
claims constrain only the resulting mode, so it is modelled
channel-preserving); an `RGB` bitmap is left untouched. -/
def flattenToRGB (image : Img) : Img :=
  if image.mode = Mode.RGBA then
    { mode := Mode.RGB, width := image.width, height := image.height,
      px := fun x y => blendOnWhite (image.px x y) }
  else if image.mode ≠ Mode.RGB then
    { mode := Mode.RGB, width := image.width, height := image.height,
      px := fun x y => ⟨(image.px x y).r, (image.px x y).g, (image.px x y).b, 255⟩ }
  else
    image

/-! ### Output-path model -/

/-- A `pathlib.Path` abstracted to what the routine inspects: the part
before the last extension, and the extension itself (with its dot,
e.g. `".png"`; `""` when there is none). -/
structure PyPath where
  stem : String
  suffix : String
deriving DecidableEq

/-- Model of `output_file.with_suffix(s)`. -/
def PyPath.with_suffix (p : PyPath) (s : String) : PyPath := ⟨p.stem, s⟩

/-- Python's `str.lower()`: character-wise lowercasing. -/
def strLower (s : String) : String := ⟨s.data.map Char.toLower⟩

/-- Lines 128-130 of `backend/calendar/utils.py`:
`if output_file.suffix.lower() == '.png': output_file = output_file.with_suffix('.jpg')`. -/
def normalizeOutput (output_file : PyPath) : PyPath :=
  if strLower output_file.suffix = ".png" then output_file.with_suffix ".jpg"
  else output_file

/-! ### The size-targeted search loop -/

/-- Line 18 of `backend/calendar/utils.py` (same in the other modules). -/
def FINAL_PUZZLE_MIN_SIZE : Nat := 200 * 1024

/-- Line 19 of `backend/calendar/utils.py` (same in the other modules). -/
def FINAL_PUZZLE_MAX_SIZE : Nat := 300 * 1024

/-- Codec oracle: the pixel dimensions of the (flattened) bitmap, the byte
size the external JPEG encoder produces for it at a given quality
(`encFull q`), and the byte size it produces for the "resized to
`(nw, nh)` with LANCZOS" copy at a given quality (`encResized nw nh q`).
The encoder is deterministic, so these are functions. -/
structure EncodeEnv where
  w : Nat
  h : Nat
  encFull : Nat → Nat
  encResized : Nat → Nat → Nat → Nat

/-- One `image.save(output_file, 'JPEG', quality=..., optimize=True)` call:
the dimensions of the saved bitmap, the quality parameter, the byte size
written, and whether the saved bitmap was the downscaled copy. -/
structure SaveEv where
  w : Nat
  h : Nat
  quality : Nat
  size : Nat
  resized : Bool
deriving DecidableEq

/-- Byte size within the `[min, max]` acceptance window (line 143:
`min_size <= file_size <= max_size`). -/
def inWindow (size : Nat) : Prop :=
  FINAL_PUZZLE_MIN_SIZE ≤ size ∧ size ≤ FINAL_PUZZLE_MAX_SIZE

instance (size : Nat) : Decidable (inWindow size) := by
  unfold inWindow; infer_instance

/-- Python `abs(a - b)` on the (non-negative) sizes involved. -/
def absDiff (a b : Nat) : Nat := max a b - min a b

/-- Lines 112-118: clamp the caller-supplied `target_size` into
`[FINAL_PUZZLE_MIN_SIZE, FINAL_PUZZLE_MAX_SIZE]`. -/
def clampTarget (target_size : Nat) : Nat :=
  if target_size < FINAL_PUZZLE_MIN_SIZE then FINAL_PUZZLE_MIN_SIZE
  else if target_size > FINAL_PUZZLE_MAX_SIZE then FINAL_PUZZLE_MAX_SIZE
  else target_size

/-- The successive values of `current_quality` in the Phase-1 loop of
lines 132-157: start 95, step -5, loop guard `current_quality >= 30`. -/
def qualities1 : List Nat := [95, 90, 85, 80, 75, 70, 65, 60, 55, 50, 45, 40, 35, 30]

/-- The successive values of `current_quality` in the Phase-2 loop of
lines 168-182: start 85, step -5, loop guard `current_quality >= 30`. -/
def qualities2 : List Nat := [85, 80, 75, 70, 65, 60, 55, 50, 45, 40, 35, 30]

/-- Outcome of the Phase-1 sweep (lines 138-157): either the loop hit the
`return` of line 145 (`returned`), or it fell through to line 159 — by
exhausting the qualities or by the `break` of line 157 (`fell`, carrying
`best_quality` and `best_size`).  Both constructors carry the save events
so far and the file now present at the output path. -/
inductive P1Out where
  | returned : List SaveEv → Option SaveEv → P1Out
  | fell : List SaveEv → Option SaveEv → Nat → Nat → P1Out
deriving DecidableEq

/-- Save events of a Phase-1 outcome. -/
def P1Out.events : P1Out → List SaveEv
  | .returned evs _ => evs
  | .fell evs _ _ _ => evs

/-- File at the output path after a Phase-1 outcome. -/
def P1Out.file : P1Out → Option SaveEv
  | .returned _ f => f
  | .fell _ f _ _ => f

/-- Whether Phase 1 ended through the in-window `return` of line 145. -/
def P1Out.isReturned : P1Out → Bool
  | .returned _ _ => true
  | .fell _ _ _ _ => false

/-- The `best_size` value carried out of Phase 1 (`0` if it returned). -/
def P1Out.bestSize : P1Out → Nat
  | .returned _ _ => 0
  | .fell _ _ _ bs => bs

/-- The `best_quality` value carried out of Phase 1 (`0` if it returned). -/
def P1Out.bestQuality : P1Out → Nat
  | .returned _ _ => 0
  | .fell _ _ bq _ => bq

/-- The Phase-1 loop of lines 138-157, iterating over the remaining
quality values.  Arguments after the quality list: `best_quality`,
`best_size`, the save events so far, the file currently at the output
path.  Per iteration: save at quality `q` (one `SaveEv`); return if the
size is in-window (line 145); otherwise update the best candidate when
`best_size == 0` or the new size is strictly closer to `target_size`
(lines 148-150); continue at `q - 5` when the size exceeds `max_size`
(line 154), and break otherwise (line 157). -/
def sweep1 (env : EncodeEnv) (target_size : Nat) :
    List Nat → Nat → Nat → List SaveEv → Option SaveEv → P1Out
  | [], bq, bs, evs, fs => .fell evs fs bq bs
  | q :: rest, bq, bs, evs, _fs =>
    let size := env.encFull q
    let ev : SaveEv := ⟨env.w, env.h, q, size, false⟩
    if inWindow size then
      .returned (evs ++ [ev]) (some ev)
    else
      let bq' := if bs = 0 ∨ absDiff size target_size < absDiff bs target_size then q else bq
      let bs' := if bs = 0 ∨ absDiff size target_size < absDiff bs target_size then size else bs
      if FINAL_PUZZLE_MAX_SIZE < size then
        sweep1 env target_size rest bq' bs' (evs ++ [ev]) (some ev)
      else
        .fell (evs ++ [ev]) (some ev) bq' bs'

/-- Outcome of the Phase-2 sweep of lines 168-182: `returned` when the
loop hit one of its two `return` statements (line 175: in-window; line
182: size at most `max_size` but below the window, accepted as is), or
`exhausted` when the loop ran out of qualities (every size exceeded
`max_size`), in which case line 185 still performs the floor-quality
save. -/
inductive P2Out where
  | returned : List SaveEv → Option SaveEv → P2Out
  | exhausted : List SaveEv → Option SaveEv → P2Out
deriving DecidableEq

/-- Save events of a Phase-2 outcome. -/
def P2Out.events : P2Out → List SaveEv
  | .returned evs _ => evs
  | .exhausted evs _ => evs

/-- File at the output path after a Phase-2 outcome. -/
def P2Out.file : P2Out → Option SaveEv
  | .returned _ f => f
  | .exhausted _ f => f

/-- Whether the Phase-2 loop ran out of qualities (reaching line 185). -/
def P2Out.isExhausted : P2Out → Bool
  | .returned _ _ => false
  | .exhausted _ _ => true

/-- The Phase-2 loop of lines 168-182 on the bitmap resized to
`(nw, nh)`. -/
def sweep2 (env : EncodeEnv) (nw nh : Nat) :
    List Nat → List SaveEv → Option SaveEv → P2Out
  | [], evs, fs => .exhausted evs fs
  | q :: rest, evs, _fs =>
    let size := env.encResized nw nh q
    let ev : SaveEv := ⟨nw, nh, q, size, true⟩
    if inWindow size then
      .returned (evs ++ [ev]) (some ev)
    else if FINAL_PUZZLE_MAX_SIZE < size then
      sweep2 env nw nh rest (evs ++ [ev]) (some ev)
    else
      .returned (evs ++ [ev]) (some ev)

/-- Lines 163-164: `scale = (target_size / best_size) ** 0.5;`
`int(dimension * scale)`, in exact real arithmetic:
`⌊d * √(t / b)⌋ = ⌊√(d² t / b)⌋ = Nat.sqrt (d * d * t / b)`
(proved as `newDim_eq_floor` below). -/
def newDim (d target_size best_size : Nat) : Nat :=
  Nat.sqrt (d * d * target_size / best_size)

/-- Which of the four terminal paths of the routine produced the final
file: the in-window `return` of line 145, the downscale path of lines
160-187 (`best_size > max_size`), the `elif` of lines 188-191
(`best_size < min_size`), or the trailing `else` of lines 192-195. -/
inductive Branch where
  | phase1Return : Branch
  | phase2 : Branch
  | tooSmall : Branch
  | elseBranch : Branch
deriving DecidableEq

/-- Observable outcome of one call: every save event in order, the file
left at the output path (the last save), and the terminal path taken. -/
structure RunResult where
  events : List SaveEv
  file : Option SaveEv
  branch : Branch
deriving DecidableEq

/-- Lines 112-195 of `backend/calendar/utils.py` after the RGB and path
normalisation: clamp the target, run the Phase-1 sweep, then dispatch on
`best_size` exactly as lines 159-195 do.  `fs0` is the file present at
the output path before the call (the routine only overwrites it, so the
result will be proved independent of it). -/
def save_final_puzzle_image_run (env : EncodeEnv) (target_size : Nat)
    (fs0 : Option SaveEv) : RunResult :=
  let target := clampTarget target_size
  match sweep1 env target qualities1 95 0 [] fs0 with
  | .returned evs f => ⟨evs, f, Branch.phase1Return⟩
  | .fell evs f bq bs =>
    if FINAL_PUZZLE_MAX_SIZE < bs then
      let nw := newDim env.w target bs
      let nh := newDim env.h target bs
      match sweep2 env nw nh qualities2 evs f with
      | .returned evs2 f2 => ⟨evs2, f2, Branch.phase2⟩
      | .exhausted evs2 _f2 =>
        let size := env.encResized nw nh 30
        let ev : SaveEv := ⟨nw, nh, 30, size, true⟩
        ⟨evs2 ++ [ev], some ev, Branch.phase2⟩
    else if bs < FINAL_PUZZLE_MIN_SIZE then
      let ev : SaveEv := ⟨env.w, env.h, bq, env.encFull bq, false⟩
      ⟨evs ++ [ev], some ev, Branch.tooSmall⟩
    else
      let ev : SaveEv := ⟨env.w, env.h, bq, env.encFull bq, false⟩
      ⟨evs ++ [ev], some ev, Branch.elseBranch⟩

/-- The whole of `save_final_puzzle_image` (lines 103-196): normalise the
bitmap to RGB, normalise the output path, and run the search with the
codec oracle obtained from the external JPEG encoder `enc` and resizer
`resizeImg` applied to the flattened bitmap.  Returns the final output
path and the observable outcome. -/
def save_final_puzzle_image (enc : Img → Nat → Nat)
    (resizeImg : Img → Nat → Nat → Img) (image : Img) (output_file : PyPath)
    (target_size : Nat) (fs0 : Option SaveEv) : PyPath × RunResult :=
  let img := flattenToRGB image
  let env : EncodeEnv :=
    ⟨img.width, img.height, fun q => enc img q,
     fun nw nh q => enc (resizeImg img nw nh) q⟩
  (normalizeOutput output_file, save_final_puzzle_image_run env target_size fs0)

/-! ### Concrete bitmaps and codec oracles used as test inputs -/

/-- Fully-transparent 2x2 RGBA test bitmap. -/
def testRGBA : Img := ⟨Mode.RGBA, 2, 2, fun _ _ => ⟨12, 34, 56, 0⟩⟩

/-- Test codec: every full-resolution encode is 400000 bytes (above the
window), every downscaled encode is 250000 bytes (inside it). -/
def cenvOversize : EncodeEnv := ⟨1000, 1000, fun _ => 400000, fun _ _ _ => 250000⟩

/-- Test codec: every encode is 1000 bytes (far below the window), as for
a trivially compressible bitmap. -/
def cenvUndersize : EncodeEnv := ⟨100, 100, fun _ => 1000, fun _ _ _ => 1000⟩

/-- Test codec: every full-resolution encode is 400000 bytes (above the
window), every downscaled encode is 1000 bytes (below it). -/
def cenvDropBelow : EncodeEnv := ⟨1000, 1000, fun _ => 400000, fun _ _ _ => 1000⟩

/-- Test codec: every encode, downscaled or not, is 400000 bytes (above
the window). -/
def cenvStuckAbove : EncodeEnv := ⟨1000, 1000, fun _ => 400000, fun _ _ _ => 400000⟩

/-! ### Basic facts about the window and the clamp -/

theorem min_size_pos : 0 < FINAL_PUZZLE_MIN_SIZE := by decide

theorem min_le_max_size : FINAL_PUZZLE_MIN_SIZE ≤ FINAL_PUZZLE_MAX_SIZE := by decide

theorem not_inWindow_iff (s : Nat) :
    ¬ inWindow s ↔ s < FINAL_PUZZLE_MIN_SIZE ∨ FINAL_PUZZLE_MAX_SIZE < s := by
  unfold inWindow; omega

theorem clampTarget_bounds (t : Nat) :
    FINAL_PUZZLE_MIN_SIZE ≤ clampTarget t ∧ clampTarget t ≤ FINAL_PUZZLE_MAX_SIZE := by
  simp only [clampTarget, FINAL_PUZZLE_MIN_SIZE, FINAL_PUZZLE_MAX_SIZE]
  split_ifs <;> omega

/-! ### Shape of the Phase-1 sweep -/

theorem sweep1_shape (env : EncodeEnv) (t : Nat) :
    ∀ (qs : List Nat) (bq bs : Nat) (evs : List SaveEv) (fs : Option SaveEv),
    ∃ new : List SaveEv,
      (sweep1 env t qs bq bs evs fs).events = evs ++ new ∧
      new.map (fun ev => ev.quality) <+: qs ∧
      (∀ ev ∈ new, ev.w = env.w ∧ ev.h = env.h ∧ ev.resized = false ∧
        ev.size = env.encFull ev.quality) ∧
      (qs ≠ [] → new ≠ []) ∧
      (∀ ev ∈ new.dropLast, FINAL_PUZZLE_MAX_SIZE < ev.size) ∧
      (new ≠ [] → (sweep1 env t qs bq bs evs fs).file = new.getLast?) ∧
      (new = [] → (sweep1 env t qs bq bs evs fs).file = fs) ∧
      ((sweep1 env t qs bq bs evs fs).isReturned = true →
        ∃ ev, new.getLast? = some ev ∧ inWindow ev.size) ∧
      ((sweep1 env t qs bq bs evs fs).isReturned = false →
        ∀ ev, new.getLast? = some ev →
          ¬ inWindow ev.size ∧
          (new.length < qs.length → ev.size < FINAL_PUZZLE_MIN_SIZE)) := by
  intro qs
  induction qs with
  | nil =>
    intro bq bs evs fs
    refine ⟨[], ?_, ?_, ?_, ?_, ?_, ?_, ?_, ?_, ?_⟩ <;>
      simp [sweep1, P1Out.events, P1Out.file, P1Out.isReturned]
  | cons q rest ih =>
    intro bq bs evs fs
    set sz := env.encFull q with hsz
    set ev : SaveEv := ⟨env.w, env.h, q, sz, false⟩ with hev
    by_cases hw : inWindow sz
    · refine ⟨[ev], ?_, ⟨rest, rfl⟩, ?_, ?_, ?_, ?_, ?_, ?_, ?_⟩ <;>
        simp [sweep1, hw, P1Out.events, P1Out.file, P1Out.isReturned, hev]
    · by_cases hbig : FINAL_PUZZLE_MAX_SIZE < sz
      · have hstep : sweep1 env t (q :: rest) bq bs evs fs =
            sweep1 env t rest
              (if bs = 0 ∨ absDiff sz t < absDiff bs t then q else bq)
              (if bs = 0 ∨ absDiff sz t < absDiff bs t then sz else bs)
              (evs ++ [ev]) (some ev) := by
          simp [sweep1, hw, hbig]
        obtain ⟨new', h1, h2, h3, h4, h5, h6, h7, h8, h9⟩ :=
          ih (if bs = 0 ∨ absDiff sz t < absDiff bs t then q else bq)
            (if bs = 0 ∨ absDiff sz t < absDiff bs t then sz else bs)
            (evs ++ [ev]) (some ev)
        refine ⟨ev :: new', ?_, ?_, ?_, ?_, ?_, ?_, ?_, ?_, ?_⟩
        · rw [hstep, h1]; simp
        · obtain ⟨tl, htl⟩ := h2
          exact ⟨tl, by simp [htl]⟩
        · intro e he
          rcases List.mem_cons.mp he with rfl | he'
          · exact ⟨rfl, rfl, rfl, rfl⟩
          · exact h3 e he'
        · intro _; simp
        · intro e he
          match new', h5 with
          | [], _ => simp at he
          | e2 :: tl2, h5 =>
            rw [List.dropLast_cons₂] at he
            rcases List.mem_cons.mp he with rfl | he'
            · exact hbig
            · exact h5 e he'
        · intro _
          rw [hstep]
          match new', h6, h7 with
          | [], _, h7 => rw [h7 rfl]; rfl
          | e2 :: tl2, h6, _ =>
            rw [h6 (by simp), List.getLast?_cons_cons]
        · intro h; exact absurd h (by simp)
        · intro hret
          rw [hstep] at hret
          obtain ⟨e, he1, he2⟩ := h8 hret
          refine ⟨e, ?_, he2⟩
          match new', he1 with
          | [], he1 => simp at he1
          | e2 :: tl2, he1 =>
            rw [List.getLast?_cons_cons]
            exact he1
        · intro hret e he
          rw [hstep] at hret
          match new', h4, h9, he with
          | [], h4, _, he =>
            have he' : e = ev := by simpa using he.symm
            subst he'
            refine ⟨hw, ?_⟩
            intro hlen
            exfalso
            simp only [List.length_cons, List.length_nil] at hlen
            have hrest : rest ≠ [] := by
              intro hr
              rw [hr] at hlen
              simp at hlen
            exact (h4 hrest) rfl
          | e2 :: tl2, _, h9, he =>
            rw [List.getLast?_cons_cons] at he
            obtain ⟨hi1, hi2⟩ := h9 hret e he
            refine ⟨hi1, ?_⟩
            intro hlen
            apply hi2
            simp only [List.length_cons] at hlen ⊢
            omega
      · have hsmall : sz < FINAL_PUZZLE_MIN_SIZE := by
          rcases (not_inWindow_iff sz).mp hw with h' | h'
          · exact h'
          · exact absurd h' hbig
        refine ⟨[ev], ?_, ⟨rest, rfl⟩, ?_, ?_, ?_, ?_, ?_, ?_, ?_⟩
        · simp [sweep1, hw, hbig, P1Out.events]
        · intro e he
          rcases List.mem_cons.mp he with rfl | he'
          · exact ⟨rfl, rfl, rfl, rfl⟩
          · simp at he'
        · intro _; simp
        · intro e he; simp at he
        · intro _; simp [sweep1, hw, hbig, P1Out.file]
        · intro h; exact absurd h (by simp)
        · intro hret
          simp [sweep1, hw, hbig, P1Out.isReturned] at hret
        · intro _ e he
          have he' : e = ev := by simpa using he.symm
          subst he'
          exact ⟨hw, fun _ => hsmall⟩

/-! ### Shape of the Phase-2 sweep -/

theorem sweep2_shape (env : EncodeEnv) (nw nh : Nat) :
    ∀ (qs : List Nat) (evs : List SaveEv) (fs : Option SaveEv),
    ∃ new : List SaveEv,
      (sweep2 env nw nh qs evs fs).events = evs ++ new ∧
      new.map (fun ev => ev.quality) <+: qs ∧
      (∀ ev ∈ new, ev.w = nw ∧ ev.h = nh ∧ ev.resized = true ∧
        ev.size = env.encResized nw nh ev.quality) ∧
      (qs ≠ [] → new ≠ []) ∧
      (∀ ev ∈ new.dropLast, FINAL_PUZZLE_MAX_SIZE < ev.size) ∧
      (new ≠ [] → (sweep2 env nw nh qs evs fs).file = new.getLast?) ∧
      (new = [] → (sweep2 env nw nh qs evs fs).file = fs) ∧
      ((sweep2 env nw nh qs evs fs).isExhausted = true →
        new.map (fun ev => ev.quality) = qs ∧
        ∀ ev ∈ new, FINAL_PUZZLE_MAX_SIZE < ev.size) := by
  intro qs
  induction qs with
  | nil =>
    intro evs fs
    refine ⟨[], ?_, ?_, ?_, ?_, ?_, ?_, ?_, ?_⟩ <;>
      simp [sweep2, P2Out.events, P2Out.file, P2Out.isExhausted]
  | cons q rest ih =>
    intro evs fs
    set sz := env.encResized nw nh q with hsz
    set ev : SaveEv := ⟨nw, nh, q, sz, true⟩ with hev
    by_cases hw : inWindow sz
    · refine ⟨[ev], ?_, ⟨rest, rfl⟩, ?_, ?_, ?_, ?_, ?_, ?_⟩ <;>
        simp [sweep2, hw, P2Out.events, P2Out.file, P2Out.isExhausted, hev]
    · by_cases hbig : FINAL_PUZZLE_MAX_SIZE < sz
      · have hstep : sweep2 env nw nh (q :: rest) evs fs =
            sweep2 env nw nh rest (evs ++ [ev]) (some ev) := by
          simp [sweep2, hw, hbig]
        obtain ⟨new', h1, h2, h3, h4, h5, h6, h7, h8⟩ := ih (evs ++ [ev]) (some ev)
        refine ⟨ev :: new', ?_, ?_, ?_, ?_, ?_, ?_, ?_, ?_⟩
        · rw [hstep, h1]; simp
        · obtain ⟨tl, htl⟩ := h2
          exact ⟨tl, by simp [htl]⟩
        · intro e he
          rcases List.mem_cons.mp he with rfl | he'
          · exact ⟨rfl, rfl, rfl, rfl⟩
          · exact h3 e he'
        · intro _; simp
        · intro e he
          match new', h5 with
          | [], _ => simp at he
          | e2 :: tl2, h5 =>
            rw [List.dropLast_cons₂] at he
            rcases List.mem_cons.mp he with rfl | he'
            · exact hbig
            · exact h5 e he'
        · intro _
          rw [hstep]
          match new', h6, h7 with
          | [], _, h7 => rw [h7 rfl]; rfl
          | e2 :: tl2, h6, _ =>
            rw [h6 (by simp), List.getLast?_cons_cons]
        · intro h; exact absurd h (by simp)
        · intro hex
          rw [hstep] at hex
          obtain ⟨hm, ha⟩ := h8 hex
          refine ⟨by simp [hm], ?_⟩
          intro e he
          rcases List.mem_cons.mp he with rfl | he'
          · exact hbig
          · exact ha e he'
      · refine ⟨[ev], ?_, ⟨rest, rfl⟩, ?_, ?_, ?_, ?_, ?_, ?_⟩ <;>
          simp [sweep2, hw, hbig, P2Out.events, P2Out.file, P2Out.isExhausted, hev]

/-! ### Independence from the pre-existing file at the output path -/

theorem sweep1_fs_irrel (env : EncodeEnv) (t q : Nat) (rest : List Nat)
    (bq bs : Nat) (evs : List SaveEv) (fs fs' : Option SaveEv) :
    sweep1 env t (q :: rest) bq bs evs fs = sweep1 env t (q :: rest) bq bs evs fs' := by
  simp only [sweep1]

/-! ### Invariant on the best candidate carried out of Phase 1 -/

theorem sweep1_fell_best (env : EncodeEnv) (t : Nat)
    (hpos : ∀ q, 0 < env.encFull q) :
    ∀ (qs : List Nat) (bq bs : Nat) (evs : List SaveEv) (fs : Option SaveEv),
    (bs = 0 ∨ (0 < bs ∧ ¬ inWindow bs)) →
    ∀ evs' f' bq' bs', sweep1 env t qs bq bs evs fs = .fell evs' f' bq' bs' →
      (bs' = 0 ∧ bs = 0 ∧ qs = []) ∨ (0 < bs' ∧ ¬ inWindow bs') := by
  intro qs
  induction qs with
  | nil =>
    intro bq bs evs fs hinv evs' f' bq' bs' hfell
    simp only [sweep1, P1Out.fell.injEq] at hfell
    obtain ⟨-, -, -, rfl⟩ := hfell
    rcases hinv with rfl | h
    · exact Or.inl ⟨rfl, rfl, rfl⟩
    · exact Or.inr h
  | cons q rest ih =>
    intro bq bs evs fs hinv evs' f' bq' bs' hfell
    set sz := env.encFull q with hsz
    by_cases hw : inWindow sz
    · simp [sweep1, hw] at hfell
    · have hnext : (if bs = 0 ∨ absDiff sz t < absDiff bs t then sz else bs) = 0 ∨
          (0 < (if bs = 0 ∨ absDiff sz t < absDiff bs t then sz else bs) ∧
           ¬ inWindow (if bs = 0 ∨ absDiff sz t < absDiff bs t then sz else bs)) := by
        split_ifs with hc
        · exact Or.inr ⟨hpos q, hw⟩
        · rcases hinv with rfl | h
          · exact absurd (Or.inl rfl) hc
          · exact Or.inr h
      by_cases hbig : FINAL_PUZZLE_MAX_SIZE < sz
      · have hstep : sweep1 env t (q :: rest) bq bs evs fs =
            sweep1 env t rest
              (if bs = 0 ∨ absDiff sz t < absDiff bs t then q else bq)
              (if bs = 0 ∨ absDiff sz t < absDiff bs t then sz else bs)
              (evs ++ [⟨env.w, env.h, q, sz, false⟩]) (some ⟨env.w, env.h, q, sz, false⟩) := by
          simp [sweep1, hw, hbig]
        rw [hstep] at hfell
        rcases ih _ _ _ _ hnext _ _ _ _ hfell with ⟨-, hbs0, -⟩ | h
        · exfalso
          by_cases hc : bs = 0 ∨ absDiff sz t < absDiff bs t
          · rw [if_pos hc] at hbs0
            have := hpos q
            omega
          · rw [if_neg hc] at hbs0
            exact hc (Or.inl hbs0)
        · exact Or.inr h
      · have hfell' : P1Out.fell (evs ++ [⟨env.w, env.h, q, sz, false⟩])
            (some ⟨env.w, env.h, q, sz, false⟩)
            (if bs = 0 ∨ absDiff sz t < absDiff bs t then q else bq)
            (if bs = 0 ∨ absDiff sz t < absDiff bs t then sz else bs) =
            P1Out.fell evs' f' bq' bs' := by
          rw [← hfell]
          simp [sweep1, hw, hbig]
        simp only [P1Out.fell.injEq] at hfell'
        obtain ⟨-, -, -, hbs'⟩ := hfell'
        rw [← hbs']
        rcases hnext with h0 | h
        · exfalso
          by_cases hc : bs = 0 ∨ absDiff sz t < absDiff bs t
          · rw [if_pos hc] at h0
            have := hpos q
            omega
          · rw [if_neg hc] at h0
            exact hc (Or.inl h0)
        · exact Or.inr h

theorem sweep1_fell_bestQuality_le (env : EncodeEnv) (t : Nat) :
    ∀ (qs : List Nat) (bq bs : Nat) (evs : List SaveEv) (fs : Option SaveEv),
    (∀ q ∈ qs, q ≤ 95) → bq ≤ 95 →
    ∀ evs' f' bq' bs', sweep1 env t qs bq bs evs fs = .fell evs' f' bq' bs' →
      bq' ≤ 95 := by
  intro qs
  induction qs with
  | nil =>
    intro bq bs evs fs _ hbq evs' f' bq' bs' hfell
    simp only [sweep1, P1Out.fell.injEq] at hfell
    obtain ⟨-, -, rfl, -⟩ := hfell
    exact hbq
  | cons q rest ih =>
    intro bq bs evs fs hqs hbq evs' f' bq' bs' hfell
    set sz := env.encFull q with hsz
    have hq95 : q ≤ 95 := hqs q (List.mem_cons_self q rest)
    have hbq' : (if bs = 0 ∨ absDiff sz t < absDiff bs t then q else bq) ≤ 95 := by
      split_ifs <;> assumption
    by_cases hw : inWindow sz
    · simp [sweep1, hw] at hfell
    · by_cases hbig : FINAL_PUZZLE_MAX_SIZE < sz
      · have hstep : sweep1 env t (q :: rest) bq bs evs fs =
            sweep1 env t rest
              (if bs = 0 ∨ absDiff sz t < absDiff bs t then q else bq)
              (if bs = 0 ∨ absDiff sz t < absDiff bs t then sz else bs)
              (evs ++ [⟨env.w, env.h, q, sz, false⟩]) (some ⟨env.w, env.h, q, sz, false⟩) := by
          simp [sweep1, hw, hbig]
        rw [hstep] at hfell
        exact ih _ _ _ _ (fun x hx => hqs x (List.mem_cons_of_mem q hx)) hbq' _ _ _ _ hfell
      · have hfell' : P1Out.fell (evs ++ [⟨env.w, env.h, q, sz, false⟩])
            (some ⟨env.w, env.h, q, sz, false⟩)
            (if bs = 0 ∨ absDiff sz t < absDiff bs t then q else bq)
            (if bs = 0 ∨ absDiff sz t < absDiff bs t then sz else bs) =
            P1Out.fell evs' f' bq' bs' := by
          rw [← hfell]
          simp [sweep1, hw, hbig]
        simp only [P1Out.fell.injEq] at hfell'
        obtain ⟨-, -, hbq'', -⟩ := hfell'
        rw [← hbq'']
        exact hbq'

theorem sweep2_exhaust (env : EncodeEnv) (nw nh : Nat) :
    ∀ (qs : List Nat) (evs : List SaveEv) (fs : Option SaveEv),
    (∀ q ∈ qs, FINAL_PUZZLE_MAX_SIZE < env.encResized nw nh q) →
    ∃ evs2 f2, sweep2 env nw nh qs evs fs = .exhausted evs2 f2 := by
  intro qs
  induction qs with
  | nil =>
    intro evs fs _
    exact ⟨evs, fs, by simp [sweep2]⟩
  | cons q rest ih =>
    intro evs fs hall
    have hbig : FINAL_PUZZLE_MAX_SIZE < env.encResized nw nh q :=
      hall q (List.mem_cons_self q rest)
    have hw : ¬ inWindow (env.encResized nw nh q) := by
      rw [not_inWindow_iff]
      exact Or.inr hbig
    have hstep : sweep2 env nw nh (q :: rest) evs fs =
        sweep2 env nw nh rest (evs ++ [⟨nw, nh, q, env.encResized nw nh q, true⟩])
          (some ⟨nw, nh, q, env.encResized nw nh q, true⟩) := by
      simp [sweep2, hw, hbig]
    rw [hstep]
    exact ih _ _ (fun x hx => hall x (List.mem_cons_of_mem q hx))

/-! ### The downscale dimensions -/

theorem newDim_le (d t b : Nat) (htb : t ≤ b) : newDim d t b ≤ d := by
  unfold newDim
  have h1 : d * d * t / b ≤ d * d := by
    rcases Nat.eq_zero_or_pos b with rfl | hb
    · simp
    · calc d * d * t / b ≤ d * d * b / b :=
            Nat.div_le_div_right (Nat.mul_le_mul_left _ htb)
        _ = d * d := Nat.mul_div_left (d * d) hb
  calc Nat.sqrt (d * d * t / b) ≤ Nat.sqrt (d * d) := Nat.sqrt_le_sqrt h1
    _ = d := Nat.sqrt_eq d

theorem nat_floor_sqrt (x : ℝ) (hx : 0 ≤ x) :
    ⌊Real.sqrt x⌋₊ = Nat.sqrt ⌊x⌋₊ := by
  apply le_antisymm
  · rw [Nat.le_sqrt]
    apply Nat.le_floor
    push_cast
    have h1 : (⌊Real.sqrt x⌋₊ : ℝ) ≤ Real.sqrt x := Nat.floor_le (Real.sqrt_nonneg x)
    calc (⌊Real.sqrt x⌋₊ : ℝ) * (⌊Real.sqrt x⌋₊ : ℝ) ≤ Real.sqrt x * Real.sqrt x :=
          mul_le_mul h1 h1 (by positivity) (Real.sqrt_nonneg x)
      _ = x := Real.mul_self_sqrt hx
  · apply Nat.le_floor
    apply Real.le_sqrt_of_sq_le
    have h1 : Nat.sqrt ⌊x⌋₊ * Nat.sqrt ⌊x⌋₊ ≤ ⌊x⌋₊ := Nat.sqrt_le _
    calc ((Nat.sqrt ⌊x⌋₊ : ℝ)) ^ 2 = ((Nat.sqrt ⌊x⌋₊ * Nat.sqrt ⌊x⌋₊ : ℕ) : ℝ) := by
          push_cast; ring
      _ ≤ (⌊x⌋₊ : ℝ) := by exact_mod_cast h1
      _ ≤ x := Nat.floor_le hx

theorem newDim_eq_floor (d t b : Nat) :
    newDim d t b = ⌊(d : ℝ) * Real.sqrt ((t : ℝ) / (b : ℝ))⌋₊ := by
  have h1 : (d : ℝ) * Real.sqrt ((t : ℝ) / (b : ℝ)) =
      Real.sqrt (((d * d * t : ℕ) : ℝ) / (b : ℝ)) := by
    rw [show ((d * d * t : ℕ) : ℝ) / (b : ℝ) =
          ((d : ℝ)) ^ 2 * ((t : ℝ) / (b : ℝ)) by push_cast; ring]
    rw [Real.sqrt_mul (by positivity) _, Real.sqrt_sq (by positivity)]
  rw [h1, nat_floor_sqrt _ (by positivity), Nat.floor_div_nat, Nat.floor_natCast]
  rfl

/-! ### Dispatch of the run on the Phase-1 outcome -/

theorem run_returned (env : EncodeEnv) (t : Nat) (fs0 : Option SaveEv)
    (evs : List SaveEv) (f : Option SaveEv)
    (h : sweep1 env (clampTarget t) qualities1 95 0 [] fs0 = .returned evs f) :
    save_final_puzzle_image_run env t fs0 = ⟨evs, f, Branch.phase1Return⟩ := by
  simp only [save_final_puzzle_image_run]
  rw [h]

theorem run_fell_small (env : EncodeEnv) (t : Nat) (fs0 : Option SaveEv)
    (evs : List SaveEv) (f : Option SaveEv) (bq bs : Nat)
    (h : sweep1 env (clampTarget t) qualities1 95 0 [] fs0 = .fell evs f bq bs)
    (hsmall : bs < FINAL_PUZZLE_MIN_SIZE) :
    save_final_puzzle_image_run env t fs0 =
      ⟨evs ++ [⟨env.w, env.h, bq, env.encFull bq, false⟩],
       some ⟨env.w, env.h, bq, env.encFull bq, false⟩, Branch.tooSmall⟩ := by
  have hnb : ¬ FINAL_PUZZLE_MAX_SIZE < bs := by
    have := min_le_max_size
    omega
  simp only [save_final_puzzle_image_run]
  rw [h]
  simp [hnb, hsmall]

theorem run_fell_mid (env : EncodeEnv) (t : Nat) (fs0 : Option SaveEv)
    (evs : List SaveEv) (f : Option SaveEv) (bq bs : Nat)
    (h : sweep1 env (clampTarget t) qualities1 95 0 [] fs0 = .fell evs f bq bs)
    (hmid : FINAL_PUZZLE_MIN_SIZE ≤ bs ∧ bs ≤ FINAL_PUZZLE_MAX_SIZE) :
    save_final_puzzle_image_run env t fs0 =
      ⟨evs ++ [⟨env.w, env.h, bq, env.encFull bq, false⟩],
       some ⟨env.w, env.h, bq, env.encFull bq, false⟩, Branch.elseBranch⟩ := by
  simp only [save_final_puzzle_image_run]
  rw [h]
  have h1 : ¬ FINAL_PUZZLE_MAX_SIZE < bs := by omega
  have h2 : ¬ bs < FINAL_PUZZLE_MIN_SIZE := by omega
  simp [h1, h2]

theorem run_fell_big_returned (env : EncodeEnv) (t : Nat) (fs0 : Option SaveEv)
    (evs : List SaveEv) (f : Option SaveEv) (bq bs : Nat)
    (evs2 : List SaveEv) (f2 : Option SaveEv)
    (h : sweep1 env (clampTarget t) qualities1 95 0 [] fs0 = .fell evs f bq bs)
    (hbig : FINAL_PUZZLE_MAX_SIZE < bs)
    (h2 : sweep2 env (newDim env.w (clampTarget t) bs) (newDim env.h (clampTarget t) bs)
        qualities2 evs f = .returned evs2 f2) :
    save_final_puzzle_image_run env t fs0 = ⟨evs2, f2, Branch.phase2⟩ := by
  simp only [save_final_puzzle_image_run]
  rw [h]
  simp only [if_pos hbig]
  rw [h2]

theorem run_fell_big_exhausted (env : EncodeEnv) (t : Nat) (fs0 : Option SaveEv)
    (evs : List SaveEv) (f : Option SaveEv) (bq bs : Nat)
    (evs2 : List SaveEv) (f2 : Option SaveEv)
    (h : sweep1 env (clampTarget t) qualities1 95 0 [] fs0 = .fell evs f bq bs)
    (hbig : FINAL_PUZZLE_MAX_SIZE < bs)
    (h2 : sweep2 env (newDim env.w (clampTarget t) bs) (newDim env.h (clampTarget t) bs)
        qualities2 evs f = .exhausted evs2 f2) :
    save_final_puzzle_image_run env t fs0 =
      ⟨evs2 ++ [⟨newDim env.w (clampTarget t) bs, newDim env.h (clampTarget t) bs, 30,
          env.encResized (newDim env.w (clampTarget t) bs) (newDim env.h (clampTarget t) bs) 30,
          true⟩],
       some ⟨newDim env.w (clampTarget t) bs, newDim env.h (clampTarget t) bs, 30,
          env.encResized (newDim env.w (clampTarget t) bs) (newDim env.h (clampTarget t) bs) 30,
          true⟩,
       Branch.phase2⟩ := by
  simp only [save_final_puzzle_image_run]
  rw [h]
  simp only [if_pos hbig]
  rw [h2]

/-! ### Claim C3: alpha flattening onto white, conversion to RGB -/

/-- C3: every bitmap is in RGB mode after the normalisation step (lines
120-126); for an RGBA input the result keeps the pixel dimensions and
every fully-transparent pixel of the input becomes opaque white
`(255, 255, 255)`, never black. -/
theorem c3_alpha_flattening (image : Img) :
    (flattenToRGB image).mode = Mode.RGB ∧
    (image.mode = Mode.RGBA →
      (flattenToRGB image).width = image.width ∧
      (flattenToRGB image).height = image.height ∧
      ∀ x y, (image.px x y).a = 0 → (flattenToRGB image).px x y = whitePixel) := by
  constructor
  · unfold flattenToRGB
    split_ifs with h1 h2
    · rfl
    · rfl
    · exact not_not.mp h2
  · intro h
    refine ⟨by simp [flattenToRGB, h], by simp [flattenToRGB, h], ?_⟩
    intro x y ha
    simp [flattenToRGB, h, blendOnWhite, ha, whitePixel]

/-- Witness for C3 at a concrete fully-transparent RGBA bitmap. -/
theorem c3_witness :
    testRGBA.mode = Mode.RGBA ∧ (flattenToRGB testRGBA).mode = Mode.RGB ∧
    (flattenToRGB testRGBA).px 0 0 = whitePixel :=
  ⟨rfl, (c3_alpha_flattening testRGBA).1,
    ((c3_alpha_flattening testRGBA).2 rfl).2.2 0 0 rfl⟩

/-! ### Claim C7: extension normalisation (corrected) -/

/-- C7 counterexample: a caller-requested `.webp` path — a still-image
extension different from `.jpg` — is left unchanged by the extension
normalisation of lines 128-130, so the written artifact keeps the `.webp`
extension, contradicting the claim that every non-JPEG still-image
extension is normalized to the JPEG one. -/
theorem c7_counterexample :
    normalizeOutput ⟨"out", ".webp"⟩ = ⟨"out", ".webp"⟩ ∧
    (".webp" : String) ≠ ".jpg" := by
  refine ⟨?_, by decide⟩
  rfl

/-- C7 amended: only a requested extension whose lowercasing is exactly
`.png` is rewritten to `.jpg`; every other requested extension (e.g.
`.webp`, `.jpeg`) is left unchanged. -/
theorem c7_png_only_normalization (p : PyPath) :
    (strLower p.suffix = ".png" → normalizeOutput p = ⟨p.stem, ".jpg"⟩) ∧
    (strLower p.suffix ≠ ".png" → normalizeOutput p = p) := by
  constructor <;> intro h <;> simp [normalizeOutput, PyPath.with_suffix, h]

/-- Witness for C7 (amended) at the concrete paths `out.PNG` and
`out.jpeg`. -/
theorem c7_witness :
    (strLower ".PNG" = ".png" ∧ normalizeOutput ⟨"out", ".PNG"⟩ = ⟨"out", ".jpg"⟩) ∧
    (strLower ".jpeg" ≠ ".png" ∧ normalizeOutput ⟨"out", ".jpeg"⟩ = ⟨"out", ".jpeg"⟩) :=
  ⟨⟨rfl, (c7_png_only_normalization ⟨"out", ".PNG"⟩).1 rfl⟩,
   ⟨by decide, (c7_png_only_normalization ⟨"out", ".jpeg"⟩).2 (by decide)⟩⟩

/-! ### Claim C8: determinism -/

/-- C8: `save_final_puzzle_image` is deterministic — two runs with the
same bitmap, codec, resizer, output path and `target_size` produce the
same attempt sequence, final path and final file, whatever file was
present at the output path beforehand (`fs0` vs `fs0'`): the routine
reads nothing but its inputs and the sizes of its own writes. -/
theorem c8_deterministic (enc : Img → Nat → Nat)
    (resizeImg : Img → Nat → Nat → Img) (image : Img) (output_file : PyPath)
    (target_size : Nat) (fs0 fs0' : Option SaveEv) :
    save_final_puzzle_image enc resizeImg image output_file target_size fs0 =
    save_final_puzzle_image enc resizeImg image output_file target_size fs0' := by
  simp only [save_final_puzzle_image, save_final_puzzle_image_run, qualities1]
  rw [sweep1_fs_irrel _ _ _ _ _ _ _ fs0 fs0']

/-! ### Claim C9: the trailing else branch is unreachable -/

/-- C9: whenever Phase 1 falls through without an in-window return, the
recorded best candidate size is nonzero (given that the codec never
writes an empty file) and strictly outside the window; consequently the
trailing else branch of lines 192-195 is never the branch taken. -/
theorem c9_else_unreachable (env : EncodeEnv) (target_size : Nat)
    (fs0 : Option SaveEv) (hpos : ∀ q, 0 < env.encFull q) :
    (∀ evs f bq bs,
      sweep1 env (clampTarget target_size) qualities1 95 0 [] fs0 =
        P1Out.fell evs f bq bs →
      0 < bs ∧ (bs < FINAL_PUZZLE_MIN_SIZE ∨ FINAL_PUZZLE_MAX_SIZE < bs)) ∧
    (save_final_puzzle_image_run env target_size fs0).branch ≠ Branch.elseBranch := by
  have hmain : ∀ evs f bq bs,
      sweep1 env (clampTarget target_size) qualities1 95 0 [] fs0 =
        P1Out.fell evs f bq bs →
      0 < bs ∧ ¬ inWindow bs := by
    intro evs f bq bs hfell
    rcases sweep1_fell_best env (clampTarget target_size) hpos qualities1 95 0 [] fs0
        (Or.inl rfl) evs f bq bs hfell with ⟨-, -, hnil⟩ | h
    · exact absurd hnil (by simp [qualities1])
    · exact h
  constructor
  · intro evs f bq bs hfell
    obtain ⟨h1, h2⟩ := hmain evs f bq bs hfell
    exact ⟨h1, (not_inWindow_iff bs).mp h2⟩
  · cases hout : sweep1 env (clampTarget target_size) qualities1 95 0 [] fs0 with
    | returned evs f =>
      rw [run_returned env target_size fs0 evs f hout]
      simp
    | fell evs f bq bs =>
      obtain ⟨-, hw⟩ := hmain evs f bq bs hout
      rcases (not_inWindow_iff bs).mp hw with hlt | hgt
      · rw [run_fell_small env target_size fs0 evs f bq bs hout hlt]
        simp
      · cases h2c : sweep2 env (newDim env.w (clampTarget target_size) bs)
            (newDim env.h (clampTarget target_size) bs) qualities2 evs f with
        | returned evs2 f2 =>
          rw [run_fell_big_returned env target_size fs0 evs f bq bs evs2 f2 hout hgt h2c]
          simp
        | exhausted evs2 f2 =>
          rw [run_fell_big_exhausted env target_size fs0 evs f bq bs evs2 f2 hout hgt h2c]
          simp

/-- Witness for C9 at a concrete oversized codec. -/
theorem c9_witness :
    (∀ q, 0 < cenvOversize.encFull q) ∧
    (save_final_puzzle_image_run cenvOversize 256000 none).branch ≠
      Branch.elseBranch :=
  ⟨by intro q; show 0 < 400000; decide,
   (c9_else_unreachable cenvOversize 256000 none
     (by intro q; show 0 < 400000; decide)).2⟩

/-! ### Claim C6: Phase 2b, best candidate below the window -/

/-- C6: when Phase 1 falls through with its best candidate strictly below
`min_size`, the routine performs no resize and no quality increase above
95: it re-encodes the full-resolution bitmap once at the recorded best
quality and returns (lines 188-191); in particular a bitmap whose
quality-95 encode is already under `min_size` yields the quality-95 file
after exactly two saves. -/
theorem c6_too_small_path (env : EncodeEnv) (target_size : Nat)
    (fs0 : Option SaveEv) :
    (∀ evs f bq bs,
      sweep1 env (clampTarget target_size) qualities1 95 0 [] fs0 =
        P1Out.fell evs f bq bs →
      bs < FINAL_PUZZLE_MIN_SIZE →
      (save_final_puzzle_image_run env target_size fs0).branch = Branch.tooSmall ∧
      (save_final_puzzle_image_run env target_size fs0).events =
        evs ++ [⟨env.w, env.h, bq, env.encFull bq, false⟩] ∧
      (save_final_puzzle_image_run env target_size fs0).file =
        some ⟨env.w, env.h, bq, env.encFull bq, false⟩ ∧
      bq ≤ 95 ∧
      (∀ ev ∈ (save_final_puzzle_image_run env target_size fs0).events,
        ev.resized = false ∧ ev.w = env.w ∧ ev.h = env.h)) ∧
    (env.encFull 95 < FINAL_PUZZLE_MIN_SIZE →
      (save_final_puzzle_image_run env target_size fs0).file =
        some ⟨env.w, env.h, 95, env.encFull 95, false⟩ ∧
      (save_final_puzzle_image_run env target_size fs0).events =
        [⟨env.w, env.h, 95, env.encFull 95, false⟩,
         ⟨env.w, env.h, 95, env.encFull 95, false⟩]) := by
  constructor
  · intro evs f bq bs hfell hsmall
    have hrun := run_fell_small env target_size fs0 evs f bq bs hfell hsmall
    obtain ⟨new, h1, -, h3, -, -, -, -, -, -⟩ :=
      sweep1_shape env (clampTarget target_size) qualities1 95 0 [] fs0
    rw [hfell] at h1
    simp only [P1Out.events, List.nil_append] at h1
    refine ⟨by rw [hrun], by rw [hrun], by rw [hrun], ?_, ?_⟩
    · exact sweep1_fell_bestQuality_le env (clampTarget target_size)
        qualities1 95 0 [] fs0 (by decide) (by norm_num) evs f bq bs hfell
    · intro ev hev
      rw [hrun] at hev
      simp only at hev
      rcases List.mem_append.mp hev with h | h
      · rw [h1] at h
        obtain ⟨hw', hh', hr', -⟩ := h3 ev h
        exact ⟨hr', hw', hh'⟩
      · simp at h
        subst h
        exact ⟨rfl, rfl, rfl⟩
  · intro hm
    have hw : ¬ inWindow (env.encFull 95) := by
      rw [not_inWindow_iff]
      exact Or.inl hm
    have hnb : ¬ FINAL_PUZZLE_MAX_SIZE < env.encFull 95 := by
      have := min_le_max_size
      omega
    have hfell : sweep1 env (clampTarget target_size) qualities1 95 0 [] fs0 =
        P1Out.fell [⟨env.w, env.h, 95, env.encFull 95, false⟩]
          (some ⟨env.w, env.h, 95, env.encFull 95, false⟩) 95 (env.encFull 95) := by
      simp [qualities1, sweep1, hw, hnb]
    have hrun := run_fell_small env target_size fs0 _ _ _ _ hfell hm
    exact ⟨by rw [hrun], by rw [hrun]; rfl⟩

/-- Witness for C6 at a concrete trivially-compressible codec: the
quality-95 encode is 1000 bytes, and the final file is the quality-95
encode at full resolution. -/
theorem c6_witness :
    cenvUndersize.encFull 95 < FINAL_PUZZLE_MIN_SIZE ∧
    (save_final_puzzle_image_run cenvUndersize 256000 none).file =
      some ⟨100, 100, 95, 1000, false⟩ :=
  ⟨by decide, ((c6_too_small_path cenvUndersize 256000 none).2 (by decide)).1⟩

/-- Helper for concrete evaluations: the downscale dimension produced by
a 1000-pixel side, target 256000 and best size 400000. -/
theorem sqrt_640000 : Nat.sqrt 640000 = 800 := (Nat.eq_sqrt.mpr (by decide)).symm

/-! ### Claim C2: the Phase-1 quality sequence (corrected) -/

/-- C2 counterexample: with a codec whose every full-resolution encode is
1000 bytes (a trivially compressible bitmap), the Phase-1 sweep stops
after the single attempt at quality 95 — the attempt is not in-window
(1000 < 204800) and the next quality 90 is still at or above the floor
30, so the sweep stops for a third reason the claim does not allow: the
encode fell below `min_size` (the defensive break of line 157). -/
theorem c2_counterexample :
    (sweep1 cenvUndersize (clampTarget 256000) qualities1 95 0 [] none).events.map
      (fun ev => ev.quality) = [95] ∧
    (sweep1 cenvUndersize (clampTarget 256000) qualities1 95 0 [] none).isReturned
      = false ∧
    ¬ inWindow 1000 ∧ 30 ≤ 95 - 5 := by
  refine ⟨?_, ?_, by decide, by decide⟩ <;> decide

/-- C2 amended: the Phase-1 attempt qualities are an initial segment of
95, 90, ..., 30 (strictly decreasing by exactly 5 from 95); every attempt
before the stopping one exceeded `max_size`; the sweep returns exactly on
an in-window encode; and when it stops early without returning (before
the floor is reached) the stopping encode was below `min_size` — the
defensive break, the one stopping condition the original claim omits. -/
theorem c2_phase1_quality_sequence (env : EncodeEnv) (target_size : Nat)
    (fs0 : Option SaveEv) :
    ∃ evs : List SaveEv,
      (sweep1 env (clampTarget target_size) qualities1 95 0 [] fs0).events = evs ∧
      evs ≠ [] ∧
      evs.map (fun ev => ev.quality) <+: qualities1 ∧
      (∀ ev ∈ evs.dropLast, FINAL_PUZZLE_MAX_SIZE < ev.size) ∧
      ((sweep1 env (clampTarget target_size) qualities1 95 0 [] fs0).isReturned
          = true →
        ∃ ev, evs.getLast? = some ev ∧ inWindow ev.size) ∧
      ((sweep1 env (clampTarget target_size) qualities1 95 0 [] fs0).isReturned
          = false →
        ∀ ev, evs.getLast? = some ev →
          ¬ inWindow ev.size ∧
          (evs.length < 14 → ev.size < FINAL_PUZZLE_MIN_SIZE)) := by
  obtain ⟨new, h1, h2, -, h4, h5, -, -, h8, h9⟩ :=
    sweep1_shape env (clampTarget target_size) qualities1 95 0 [] fs0
  refine ⟨new, by simpa using h1, h4 (by simp [qualities1]), h2, h5, h8, ?_⟩
  intro hret ev hev
  obtain ⟨hi1, hi2⟩ := h9 hret ev hev
  exact ⟨hi1, fun hlen => hi2 (by simpa [qualities1] using hlen)⟩

/-- Witness for C2 (amended) at a concrete codec: the sweep fell through
and its last (only) attempt was below the window. -/
theorem c2_witness :
    (sweep1 cenvUndersize (clampTarget 256000) qualities1 95 0 [] none).isReturned
      = false ∧
    ∀ ev, (sweep1 cenvUndersize (clampTarget 256000) qualities1 95 0 []
        none).events.getLast? = some ev → ev.size < FINAL_PUZZLE_MIN_SIZE := by
  obtain ⟨evs, h1, -, -, -, -, h6⟩ :=
    c2_phase1_quality_sequence cenvUndersize 256000 none
  refine ⟨by decide, ?_⟩
  intro ev hev
  rw [h1] at hev
  exact (h6 (by decide) ev hev).2 (by rw [← h1] at hev ⊢; decide)

/-! ### Claim C5: the Phase-2 terminal fallback (corrected) -/

/-- C5 counterexample: a run in which Phase 2's resweep completes with no
encode ever landing in the window, yet the final artifact is the resized
bitmap at quality 85, not a floor-quality-30 encode: the first resized
attempt (85) is below `min_size` and line 182 accepts it immediately. -/
theorem c5_counterexample :
    (save_final_puzzle_image_run cenvDropBelow 256000 none).branch
      = Branch.phase2 ∧
    (∀ ev ∈ (save_final_puzzle_image_run cenvDropBelow 256000 none).events,
      ¬ inWindow ev.size) ∧
    (save_final_puzzle_image_run cenvDropBelow 256000 none).file.map
      (fun ev => ev.quality) = some 85 ∧
    (85 : Nat) ≠ 30 := by
  refine ⟨?_, ?_, ?_, by decide⟩ <;>
    simp +decide [save_final_puzzle_image_run, sweep1, sweep2, qualities1,
      qualities2, newDim, clampTarget, inWindow, absDiff, cenvDropBelow,
      sqrt_640000]

/-- C5 amended: when Phase 2 is entered and every resweep encode of the
resized bitmap exceeds `max_size` (so the resweep exhausts its qualities
down to 30 without returning), the final artifact is the resized bitmap
encoded once more at exactly the floor quality 30, whatever byte size
that produces. -/
theorem c5_floor_fallback (env : EncodeEnv) (target_size : Nat)
    (fs0 : Option SaveEv) :
    ∀ evs f bq bs,
      sweep1 env (clampTarget target_size) qualities1 95 0 [] fs0 =
        P1Out.fell evs f bq bs →
      FINAL_PUZZLE_MAX_SIZE < bs →
      (∀ q ∈ qualities2,
        FINAL_PUZZLE_MAX_SIZE <
          env.encResized (newDim env.w (clampTarget target_size) bs)
            (newDim env.h (clampTarget target_size) bs) q) →
      (save_final_puzzle_image_run env target_size fs0).file =
        some ⟨newDim env.w (clampTarget target_size) bs,
              newDim env.h (clampTarget target_size) bs, 30,
              env.encResized (newDim env.w (clampTarget target_size) bs)
                (newDim env.h (clampTarget target_size) bs) 30, true⟩ ∧
      (save_final_puzzle_image_run env target_size fs0).branch
        = Branch.phase2 := by
  intro evs f bq bs hfell hbig hall
  obtain ⟨evs2, f2, hex⟩ := sweep2_exhaust env _ _ qualities2 evs f hall
  have hrun := run_fell_big_exhausted env target_size fs0 evs f bq bs evs2 f2
    hfell hbig hex
  exact ⟨by rw [hrun], by rw [hrun]⟩

/-- Witness for C5 (amended) at a codec stuck above the window even after
downscaling: the final artifact is the 800x800 resized bitmap at quality
30. -/
theorem c5_witness :
    (∀ q ∈ qualities2, FINAL_PUZZLE_MAX_SIZE < 400000) ∧
    (save_final_puzzle_image_run cenvStuckAbove 256000 none).file =
      some ⟨800, 800, 30, 400000, true⟩ := by
  have hprops : (sweep1 cenvStuckAbove (clampTarget 256000) qualities1 95 0 []
        none).isReturned = false ∧
      (sweep1 cenvStuckAbove (clampTarget 256000) qualities1 95 0 []
        none).bestSize = 400000 := by decide
  refine ⟨fun q _ => by decide, ?_⟩
  cases hout : sweep1 cenvStuckAbove (clampTarget 256000) qualities1 95 0 [] none with
  | returned evs f =>
    rw [hout] at hprops
    exact absurd hprops.1 (by simp [P1Out.isReturned])
  | fell evs f bq bs =>
    rw [hout] at hprops
    have hbs : bs = 400000 := by simpa [P1Out.bestSize] using hprops.2
    subst hbs
    have hdim : newDim 1000 (clampTarget 256000) 400000 = 800 := by
      rw [show clampTarget 256000 = 256000 from by decide]
      unfold newDim
      norm_num [sqrt_640000]
    have := (c5_floor_fallback cenvStuckAbove 256000 none evs f bq 400000 hout
      (by decide) (fun q _ => by show FINAL_PUZZLE_MAX_SIZE < 400000; decide)).1
    rw [show newDim cenvStuckAbove.w (clampTarget 256000) 400000 = 800 from hdim,
      show newDim cenvStuckAbove.h (clampTarget 256000) 400000 = 800 from hdim]
      at this
    exact this

/-! ### Claim C4: entry into and shape of Phase 2 -/

/-- C4: Phase 2 is entered exactly when Phase 1 fell through with its
best candidate above `max_size`; on entry each dimension of the resized
bitmap is `⌊d * √(target / best)⌋` (the linear scale factor
`√(target_bytes / best_bytes)`, each dimension rounded down
independently); the resweep saves only the resized bitmap, its quality
sequence is an initial segment of 85, 80, ..., 30 (plus the final
floor-30 save when it exhausts), and every attempt before the stopping
one exceeded `max_size` — in particular an in-window encode returns
immediately. -/
theorem c4_phase2_shape (env : EncodeEnv) (target_size : Nat)
    (fs0 : Option SaveEv) :
    ((save_final_puzzle_image_run env target_size fs0).branch = Branch.phase2 ↔
      ∃ evs f bq bs,
        sweep1 env (clampTarget target_size) qualities1 95 0 [] fs0 =
          P1Out.fell evs f bq bs ∧ FINAL_PUZZLE_MAX_SIZE < bs) ∧
    (∀ evs f bq bs,
      sweep1 env (clampTarget target_size) qualities1 95 0 [] fs0 =
        P1Out.fell evs f bq bs →
      FINAL_PUZZLE_MAX_SIZE < bs →
      newDim env.w (clampTarget target_size) bs =
        ⌊(env.w : ℝ) * Real.sqrt ((clampTarget target_size : ℝ) / (bs : ℝ))⌋₊ ∧
      newDim env.h (clampTarget target_size) bs =
        ⌊(env.h : ℝ) * Real.sqrt ((clampTarget target_size : ℝ) / (bs : ℝ))⌋₊ ∧
      ∃ new2 : List SaveEv,
        (save_final_puzzle_image_run env target_size fs0).events = evs ++ new2 ∧
        new2.map (fun ev => ev.quality) <+: qualities2 ++ [30] ∧
        new2 ≠ [] ∧
        (∀ ev ∈ new2, ev.w = newDim env.w (clampTarget target_size) bs ∧
          ev.h = newDim env.h (clampTarget target_size) bs ∧ ev.resized = true) ∧
        (∀ ev ∈ new2.dropLast, FINAL_PUZZLE_MAX_SIZE < ev.size)) := by
  constructor
  · constructor
    · intro hbr
      cases hout : sweep1 env (clampTarget target_size) qualities1 95 0 [] fs0 with
      | returned evs f =>
        rw [run_returned env target_size fs0 evs f hout] at hbr
        exact absurd hbr (by simp)
      | fell evs f bq bs =>
        by_cases hbig : FINAL_PUZZLE_MAX_SIZE < bs
        · exact ⟨evs, f, bq, bs, rfl, hbig⟩
        · exfalso
          by_cases hsm : bs < FINAL_PUZZLE_MIN_SIZE
          · rw [run_fell_small env target_size fs0 evs f bq bs hout hsm] at hbr
            exact absurd hbr (by simp)
          · rw [run_fell_mid env target_size fs0 evs f bq bs hout
              (by omega)] at hbr
            exact absurd hbr (by simp)
    · rintro ⟨evs, f, bq, bs, hout, hbig⟩
      cases h2c : sweep2 env (newDim env.w (clampTarget target_size) bs)
          (newDim env.h (clampTarget target_size) bs) qualities2 evs f with
      | returned evs2 f2 =>
        rw [run_fell_big_returned env target_size fs0 evs f bq bs evs2 f2
          hout hbig h2c]
      | exhausted evs2 f2 =>
        rw [run_fell_big_exhausted env target_size fs0 evs f bq bs evs2 f2
          hout hbig h2c]
  · intro evs f bq bs hout hbig
    refine ⟨newDim_eq_floor env.w (clampTarget target_size) bs,
      newDim_eq_floor env.h (clampTarget target_size) bs, ?_⟩
    obtain ⟨new, hs1, hs2, hs3, hs4, hs5, -, -, hs8⟩ :=
      sweep2_shape env (newDim env.w (clampTarget target_size) bs)
        (newDim env.h (clampTarget target_size) bs) qualities2 evs f
    cases h2c : sweep2 env (newDim env.w (clampTarget target_size) bs)
        (newDim env.h (clampTarget target_size) bs) qualities2 evs f with
    | returned evs2 f2 =>
      rw [h2c] at hs1 hs8
      simp only [P2Out.events] at hs1
      refine ⟨new, ?_, ?_, ?_, ?_, hs5⟩
      · rw [run_fell_big_returned env target_size fs0 evs f bq bs evs2 f2
          hout hbig h2c]
        exact hs1
      · exact hs2.trans ⟨[30], rfl⟩
      · exact hs4 (by simp [qualities2])
      · intro ev hev
        obtain ⟨hw', hh', hr', -⟩ := hs3 ev hev
        exact ⟨hw', hh', hr'⟩
    | exhausted evs2 f2 =>
      rw [h2c] at hs1 hs8
      simp only [P2Out.events] at hs1
      obtain ⟨hmap, hall⟩ := hs8 (by simp [P2Out.isExhausted])
      refine ⟨new ++ [⟨newDim env.w (clampTarget target_size) bs,
        newDim env.h (clampTarget target_size) bs, 30,
        env.encResized (newDim env.w (clampTarget target_size) bs)
          (newDim env.h (clampTarget target_size) bs) 30, true⟩], ?_, ?_, ?_, ?_, ?_⟩
      · rw [run_fell_big_exhausted env target_size fs0 evs f bq bs evs2 f2
          hout hbig h2c]
        simp only [hs1, List.append_assoc]
      · rw [List.map_append, hmap]
        exact ⟨[], by simp⟩
      · simp
      · intro ev hev
        rcases List.mem_append.mp hev with h | h
        · obtain ⟨hw', hh', hr', -⟩ := hs3 ev h
          exact ⟨hw', hh', hr'⟩
        · simp at h
          subst h
          exact ⟨rfl, rfl, rfl⟩
      · rw [List.dropLast_concat]
        exact hall

/-- Witness for C4 at a concrete oversized codec: Phase 2 is entered and
the resized dimension is the real-arithmetic floor. -/
theorem c4_witness :
    FINAL_PUZZLE_MAX_SIZE < 400000 ∧
    (save_final_puzzle_image_run cenvOversize 256000 none).branch
      = Branch.phase2 ∧
    newDim 1000 (clampTarget 256000) 400000 =
      ⌊(1000 : ℝ) * Real.sqrt ((clampTarget 256000 : ℝ) / (400000 : ℝ))⌋₊ := by
  have hprops : (sweep1 cenvOversize (clampTarget 256000) qualities1 95 0 []
        none).isReturned = false ∧
      (sweep1 cenvOversize (clampTarget 256000) qualities1 95 0 []
        none).bestSize = 400000 := by decide
  cases hout : sweep1 cenvOversize (clampTarget 256000) qualities1 95 0 [] none with
  | returned evs f =>
    rw [hout] at hprops
    exact absurd hprops.1 (by simp [P1Out.isReturned])
  | fell evs f bq bs =>
    rw [hout] at hprops
    have hbs : bs = 400000 := by simpa [P1Out.bestSize] using hprops.2
    subst hbs
    refine ⟨by decide,
      (c4_phase2_shape cenvOversize 256000 none).1.mpr
        ⟨evs, f, bq, 400000, hout, by decide⟩,
      ((c4_phase2_shape cenvOversize 256000 none).2 evs f bq 400000 hout
        (by decide)).1⟩

/-! ### Claim C10: no upscaling -/

/-- C10: the encoder never upscales: every saved bitmap has width and
height no larger than the (flattened) input's; whenever Phase 2 is
entered, `clampTarget target ≤ max_size < best_size`, so the real scale
factor `√(target / best)` is strictly below 1 and each resized dimension
is at most the original. -/
theorem c10_no_upscale (env : EncodeEnv) (target_size : Nat)
    (fs0 : Option SaveEv) :
    (∀ ev ∈ (save_final_puzzle_image_run env target_size fs0).events,
      ev.w ≤ env.w ∧ ev.h ≤ env.h) ∧
    (∀ evs f bq bs,
      sweep1 env (clampTarget target_size) qualities1 95 0 [] fs0 =
        P1Out.fell evs f bq bs →
      FINAL_PUZZLE_MAX_SIZE < bs →
      clampTarget target_size ≤ FINAL_PUZZLE_MAX_SIZE ∧
      Real.sqrt ((clampTarget target_size : ℝ) / (bs : ℝ)) < 1 ∧
      newDim env.w (clampTarget target_size) bs ≤ env.w ∧
      newDim env.h (clampTarget target_size) bs ≤ env.h) := by
  have hclamp := clampTarget_bounds target_size
  constructor
  · obtain ⟨new, h1, -, h3, -, -, -, -, -, -⟩ :=
      sweep1_shape env (clampTarget target_size) qualities1 95 0 [] fs0
    cases hout : sweep1 env (clampTarget target_size) qualities1 95 0 [] fs0 with
    | returned evs f =>
      rw [hout] at h1
      simp only [P1Out.events, List.nil_append] at h1
      replace h1 := h1.symm
      subst h1
      rw [run_returned env target_size fs0 new f hout]
      intro ev hev
      obtain ⟨hw', hh', -, -⟩ := h3 ev hev
      exact ⟨le_of_eq hw', le_of_eq hh'⟩
    | fell evs f bq bs =>
      rw [hout] at h1
      simp only [P1Out.events, List.nil_append] at h1
      replace h1 := h1.symm
      subst h1
      by_cases hbig : FINAL_PUZZLE_MAX_SIZE < bs
      · have htb : clampTarget target_size ≤ bs :=
          le_of_lt (lt_of_le_of_lt hclamp.2 hbig)
        have hwle := newDim_le env.w (clampTarget target_size) bs htb
        have hhle := newDim_le env.h (clampTarget target_size) bs htb
        obtain ⟨new2, g1, -, g3, -, -, -, -, -⟩ :=
          sweep2_shape env (newDim env.w (clampTarget target_size) bs)
            (newDim env.h (clampTarget target_size) bs) qualities2 new f
        cases h2c : sweep2 env (newDim env.w (clampTarget target_size) bs)
            (newDim env.h (clampTarget target_size) bs) qualities2 new f with
        | returned evs2 f2 =>
          rw [h2c] at g1
          simp only [P2Out.events] at g1
          rw [run_fell_big_returned env target_size fs0 new f bq bs evs2 f2
            hout hbig h2c]
          intro ev hev
          simp only at hev
          rw [g1] at hev
          rcases List.mem_append.mp hev with h | h
          · obtain ⟨hw', hh', -, -⟩ := h3 ev h
            exact ⟨le_of_eq hw', le_of_eq hh'⟩
          · obtain ⟨hw', hh', -, -⟩ := g3 ev h
            exact ⟨hw' ▸ hwle, hh' ▸ hhle⟩
        | exhausted evs2 f2 =>
          rw [h2c] at g1
          simp only [P2Out.events] at g1
          rw [run_fell_big_exhausted env target_size fs0 new f bq bs evs2 f2
            hout hbig h2c]
          intro ev hev
          simp only at hev
          rw [g1] at hev
          rcases List.mem_append.mp hev with h | h
          · rcases List.mem_append.mp h with h' | h'
            · obtain ⟨hw', hh', -, -⟩ := h3 ev h'
              exact ⟨le_of_eq hw', le_of_eq hh'⟩
            · obtain ⟨hw', hh', -, -⟩ := g3 ev h'
              exact ⟨hw' ▸ hwle, hh' ▸ hhle⟩
          · simp at h
            subst h
            exact ⟨hwle, hhle⟩
      · have hev1 : ∀ ev ∈ new ++ [(⟨env.w, env.h, bq, env.encFull bq, false⟩ :
            SaveEv)], ev.w ≤ env.w ∧ ev.h ≤ env.h := by
          intro ev hev
          rcases List.mem_append.mp hev with h | h
          · obtain ⟨hw', hh', -, -⟩ := h3 ev h
            exact ⟨le_of_eq hw', le_of_eq hh'⟩
          · simp at h
            subst h
            exact ⟨le_refl _, le_refl _⟩
        by_cases hsm : bs < FINAL_PUZZLE_MIN_SIZE
        · rw [run_fell_small env target_size fs0 new f bq bs hout hsm]
          exact hev1
        · rw [run_fell_mid env target_size fs0 new f bq bs hout (by omega)]
          exact hev1
  · intro evs f bq bs hfell hbig
    have htb : clampTarget target_size ≤ bs :=
      le_of_lt (lt_of_le_of_lt hclamp.2 hbig)
    have hbs0 : (0 : ℝ) < (bs : ℝ) := by
      have : 0 < bs := by
        have := min_le_max_size
        have := min_size_pos
        omega
      exact_mod_cast this
    refine ⟨hclamp.2, ?_, newDim_le env.w (clampTarget target_size) bs htb,
      newDim_le env.h (clampTarget target_size) bs htb⟩
    rw [Real.sqrt_lt' one_pos, one_pow]
    rw [div_lt_one hbs0]
    exact_mod_cast lt_of_le_of_lt hclamp.2 hbig

/-- Witness for C10 at a concrete oversized codec: the scale factor is
below 1 and the 1000-pixel sides do not grow. -/
theorem c10_witness :
    clampTarget 256000 ≤ FINAL_PUZZLE_MAX_SIZE ∧
    Real.sqrt ((clampTarget 256000 : ℝ) / (400000 : ℝ)) < 1 ∧
    newDim 1000 (clampTarget 256000) 400000 ≤ 1000 := by
  have hprops : (sweep1 cenvOversize (clampTarget 256000) qualities1 95 0 []
        none).isReturned = false ∧
      (sweep1 cenvOversize (clampTarget 256000) qualities1 95 0 []
        none).bestSize = 400000 := by decide
  cases hout : sweep1 cenvOversize (clampTarget 256000) qualities1 95 0 [] none with
  | returned evs f =>
    rw [hout] at hprops
    exact absurd hprops.1 (by simp [P1Out.isReturned])
  | fell evs f bq bs =>
    rw [hout] at hprops
    have hbs : bs = 400000 := by simpa [P1Out.bestSize] using hprops.2
    subst hbs
    have h := (c10_no_upscale cenvOversize 256000 none).2 evs f bq 400000 hout
      (by decide)
    exact ⟨h.1, h.2.1, h.2.2.1⟩

/-! ### Claim C1: totality, bounded attempts, a file is always written -/

/-- Helper for C1: for every codec oracle, target and pre-existing file,
the run performs between 1 and 27 saves and the file left at the output
path is the last save. -/
theorem run_total (env : EncodeEnv) (t : Nat) (fs0 : Option SaveEv) :
    (save_final_puzzle_image_run env t fs0).events ≠ [] ∧
    (save_final_puzzle_image_run env t fs0).events.length ≤ 27 ∧
    (save_final_puzzle_image_run env t fs0).file =
      (save_final_puzzle_image_run env t fs0).events.getLast? := by
  obtain ⟨new, h1, h2, -, h4, -, h6, -, -, -⟩ :=
    sweep1_shape env (clampTarget t) qualities1 95 0 [] fs0
  have hlen1 : new.length ≤ 14 := by
    have := h2.length_le
    simpa [qualities1] using this
  have hne1 : new ≠ [] := h4 (by simp [qualities1])
  cases hout : sweep1 env (clampTarget t) qualities1 95 0 [] fs0 with
  | returned evs f =>
    rw [hout] at h1 h6
    simp only [P1Out.events, List.nil_append] at h1
    replace h1 := h1.symm
    subst h1
    have hf : f = new.getLast? := by simpa [P1Out.file] using h6 hne1
    rw [run_returned env t fs0 new f hout]
    exact ⟨hne1, by show new.length ≤ 27; omega, hf⟩
  | fell evs f bq bs =>
    rw [hout] at h1
    simp only [P1Out.events, List.nil_append] at h1
    replace h1 := h1.symm
    subst h1
    by_cases hbig : FINAL_PUZZLE_MAX_SIZE < bs
    · obtain ⟨new2, g1, g2, -, g4, -, g6, -, -⟩ :=
        sweep2_shape env (newDim env.w (clampTarget t) bs)
          (newDim env.h (clampTarget t) bs) qualities2 new f
      have hlen2 : new2.length ≤ 12 := by
        have := g2.length_le
        simpa [qualities2] using this
      have hne2 : new2 ≠ [] := g4 (by simp [qualities2])
      cases h2c : sweep2 env (newDim env.w (clampTarget t) bs)
          (newDim env.h (clampTarget t) bs) qualities2 new f with
      | returned evs2 f2 =>
        rw [h2c] at g1 g6
        simp only [P2Out.events] at g1
        subst g1
        have hf2 : f2 = new2.getLast? := by simpa [P2Out.file] using g6 hne2
        rw [run_fell_big_returned env t fs0 new f bq bs (new ++ new2) f2
          hout hbig h2c]
        refine ⟨by simp [hne2], by simp; omega, ?_⟩
        rw [List.getLast?_append_of_ne_nil _ hne2]
        exact hf2
      | exhausted evs2 f2 =>
        rw [h2c] at g1
        simp only [P2Out.events] at g1
        subst g1
        rw [run_fell_big_exhausted env t fs0 new f bq bs (new ++ new2) f2
          hout hbig h2c]
        refine ⟨by simp, by simp; omega, ?_⟩
        rw [List.getLast?_concat]
    · have hfin : ∀ branchResult : RunResult,
          branchResult = ⟨new ++ [⟨env.w, env.h, bq, env.encFull bq, false⟩],
            some ⟨env.w, env.h, bq, env.encFull bq, false⟩, branchResult.branch⟩ →
          branchResult.events ≠ [] ∧ branchResult.events.length ≤ 27 ∧
          branchResult.file = branchResult.events.getLast? := by
        intro r hr
        rw [hr]
        refine ⟨by simp, by simp; omega, ?_⟩
        rw [List.getLast?_concat]
      by_cases hsm : bs < FINAL_PUZZLE_MIN_SIZE
      · rw [run_fell_small env t fs0 new f bq bs hout hsm]
        refine ⟨by simp, by simp; omega, ?_⟩
        rw [List.getLast?_concat]
      · rw [run_fell_mid env t fs0 new f bq bs hout (by omega)]
        refine ⟨by simp, by simp; omega, ?_⟩
        rw [List.getLast?_concat]

/-- C1: for every bitmap (any dimensions, any color mode), every codec,
every caller-supplied `target_size` and any pre-existing file,
`save_final_puzzle_image` terminates after at most 27 encode attempts
(at most 14 in the Phase-1 sweep, at most 13 in the Phase-2 resweep plus
floor save), always writes at least one file, and the file left at the
output path is its last save; there is no error outcome in the model —
failing to hit the size window never prevents the final write. -/
theorem c1_total_bounded (enc : Img → Nat → Nat)
    (resizeImg : Img → Nat → Nat → Img) (image : Img) (output_file : PyPath)
    (target_size : Nat) (fs0 : Option SaveEv) :
    (save_final_puzzle_image enc resizeImg image output_file target_size
      fs0).2.events ≠ [] ∧
    (save_final_puzzle_image enc resizeImg image output_file target_size
      fs0).2.events.length ≤ 27 ∧
    (save_final_puzzle_image enc resizeImg image output_file target_size
      fs0).2.file =
      (save_final_puzzle_image enc resizeImg image output_file target_size
        fs0).2.events.getLast? ∧
    (save_final_puzzle_image enc resizeImg image output_file target_size
      fs0).2.file.isSome = true := by
  have h := run_total (⟨(flattenToRGB image).width, (flattenToRGB image).height,
    fun q => enc (flattenToRGB image) q,
    fun nw nh q => enc (resizeImg (flattenToRGB image) nw nh) q⟩) target_size fs0
  refine ⟨h.1, h.2.1, h.2.2, ?_⟩
  show (save_final_puzzle_image_run ⟨(flattenToRGB image).width,
    (flattenToRGB image).height, fun q => enc (flattenToRGB image) q,
    fun nw nh q => enc (resizeImg (flattenToRGB image) nw nh) q⟩ target_size
    fs0).file.isSome = true
  rw [h.2.2, List.getLast?_isSome]
  exact h.1

end ImageTools
